import Mathlib

/-!
Verification development for the cytrade trading agent.

Shallow embedding of the repository's core components:
* `TechnicalAnalysis` (src/services/technicalAnalysis.js): indicator state,
  EMA computation, EMA-history maintenance, arc-pattern detection.
* `TradingBot` (src/services/tradingBot.js): crossover signal detection and
  arc-pattern handling (staleness guard).
* `WebSocketManager` (src/services/webSocketManager.js): reconnect/backoff,
  heartbeat timers, subscriptions, historical-kline bootstrap.

Prices and EMA values are modelled as rationals; JavaScript arrays are lists
(`push` appends at the tail, `shift` drops the head); `null`/missing values
are `Option`; timestamps and milliseconds are naturals.
-/

namespace Cytrade

/-- JavaScript falsiness of a nullable number: `!x` is true for `null`
and for `0`. Used where the source tests `!prevEma5`, `!this.crossPrice`. -/
def jsFalsyQ (o : Option ℚ) : Prop := o = none ∨ o = some 0

instance (o : Option ℚ) : Decidable (jsFalsyQ o) := by
  unfold jsFalsyQ; infer_instance

/-- Indicator state owned by `TechnicalAnalysis` (constructor fields
`closingPrices`, `ema5History`, `ema50History`, `previousEma5`,
`previousEma50`; `volumeHistory` is irrelevant to the claims and omitted). -/
structure TAState where
  closingPrices : List ℚ
  ema5History : List ℚ
  ema50History : List ℚ
  previousEma5 : Option ℚ
  previousEma50 : Option ℚ
deriving DecidableEq

/-- A fresh `TechnicalAnalysis` instance (the constructor). -/
def initTA : TAState := ⟨[], [], [], none, none⟩

/-- `TechnicalAnalysis.addPrice` (price part only): push the closing price,
drop the oldest if over `maxClosingPrices` capacity. -/
def addPrice (maxClosingPrices : ℕ) (price : ℚ) (st : TAState) : TAState :=
  let l := st.closingPrices ++ [price]
  { st with closingPrices := if maxClosingPrices < l.length then l.tail else l }

/-- History push of `TechnicalAnalysis.updateEmaHistory`: the source pushes
the value TWICE, then shifts at most once when the length exceeds capacity. -/
def pushTwiceBounded (maxH : ℕ) (x : ℚ) (l : List ℚ) : List ℚ :=
  let l' := l ++ [x] ++ [x]
  if maxH < l'.length then l'.tail else l'

/-- `TechnicalAnalysis.updateEmaHistory`: double-push each EMA into its
history (both bounded by `config.indicators.maxEma5History`), then record
`previousEma5`/`previousEma50`. -/
def updateEmaHistory (maxH : ℕ) (e5 e50 : ℚ) (st : TAState) : TAState :=
  { st with
    ema5History := pushTwiceBounded maxH e5 st.ema5History
    ema50History := pushTwiceBounded maxH e50 st.ema50History
    previousEma5 := some e5
    previousEma50 := some e50 }

/-- `TechnicalAnalysis.updateLastEma`: overwrite the last entry of both
histories in place when both are nonempty. -/
def updateLastEma (e5 e50 : ℚ) (st : TAState) : TAState :=
  if st.ema5History ≠ [] ∧ st.ema50History ≠ [] then
    { st with
      ema5History := st.ema5History.dropLast ++ [e5]
      ema50History := st.ema50History.dropLast ++ [e50] }
  else st

/-- EMA scan: given the smoothing factor `k` and the previous EMA, produce
the successive EMA values `price*k + prev*(1-k)` over a list of prices. -/
def emaScan (k prev : ℚ) : List ℚ → List ℚ
  | [] => []
  | p :: ps => (p * k + prev * (1 - k)) :: emaScan k (p * k + prev * (1 - k)) ps

/-- Modelled from the spec: the `EMA.calculate` routine of the external
`technicalindicators` library (not part of src/). Per the spec's EMA
recurrence, the sequence is seeded with the simple average of the first
`period` values and then follows
`EMA_t = price*(2/(period+1)) + EMA_(t-1)*(1 - 2/(period+1))`;
it is empty while fewer than `period` values exist. -/
def emaCalculate (period : ℕ) (values : List ℚ) : List ℚ :=
  if period = 0 then []
  else if values.length < period then []
  else
    let seed : ℚ := (values.take period).sum / (period : ℚ)
    seed :: emaScan (2 / ((period : ℚ) + 1)) seed (values.drop period)

/-- `config.indicators.ema5Period`. -/
def ema5Period : ℕ := 5

/-- `config.indicators.ema50Period`. -/
def ema50Period : ℕ := 50

/-- `TechnicalAnalysis.calculateEMAs`: over `closingPrices ++ [currentPrice]`;
when fewer than `ema50Period` values exist BOTH results are null, otherwise
each is the last value of the corresponding EMA series. -/
def calculateEMAs (st : TAState) (currentPrice : ℚ) : Option ℚ × Option ℚ :=
  let prices := st.closingPrices ++ [currentPrice]
  if prices.length < ema50Period then (none, none)
  else ((emaCalculate ema5Period prices).getLast?,
        (emaCalculate ema50Period prices).getLast?)

/-- Arc pattern kind returned by `checkArcPattern` (`'TOP'` / `'BOTTOM'`). -/
inductive ArcPattern where
  | TOP
  | BOTTOM
deriving DecidableEq

/-- The last five entries of a history, i.e. `slice(-5)`. -/
def lastFive (l : List ℚ) : List ℚ := l.drop (l.length - 5)

/-- `TechnicalAnalysis.checkArcPattern`: with at least five points in each
history, a TOP needs the middle of the last-5 EMA5 window strictly above all
four neighbours AND `currentEma5 > currentEma50`, gated by
`|middleEma5 - middleEma50| ≥ minEmaDiff`; BOTTOM is the strict-minimum
mirror with `currentEma5 < currentEma50`. -/
def checkArcPattern (minEmaDiff : ℚ) (st : TAState) (curE5 curE50 : ℚ) :
    Option ArcPattern :=
  if st.ema5History.length < 5 ∨ st.ema50History.length < 5 then none
  else
    match lastFive st.ema5History, lastFive st.ema50History with
    | [a0, a1, a2, a3, a4], [_, _, b2, _, _] =>
      if a2 > a0 ∧ a2 > a1 ∧ a2 > a3 ∧ a2 > a4 ∧ curE5 > curE50 then
        if |a2 - b2| < minEmaDiff then none else some ArcPattern.TOP
      else if a2 < a0 ∧ a2 < a1 ∧ a2 < a3 ∧ a2 < a4 ∧ curE5 < curE50 then
        if |a2 - b2| < minEmaDiff then none else some ArcPattern.BOTTOM
      else none
    | _, _ => none

/-! ### Theorems about the EMA history bound (claim C2) -/

/-- C2 (code_bug evidence): `updateEmaHistory` does NOT grow each history by
exactly one entry nor keep it within the configured maximum (20): starting
from a fresh state, a single closed-candle update already appends two
entries, and after 11 updates the history holds 21 entries, exceeding the
capacity of 20 — the double `push` is only compensated by a single `shift`. -/
theorem updateEmaHistory_unbounded :
    ((fun s => updateEmaHistory 20 1 1 s)^[1] initTA).ema5History.length = 2
    ∧ ((fun s => updateEmaHistory 20 1 1 s)^[11] initTA).ema5History.length = 21
    ∧ ((fun s => updateEmaHistory 20 1 1 s)^[11] initTA).ema50History.length = 21 := by
  decide

/-! ### Theorems about EMA definedness (claim C8) -/

lemma emaCalculate_ne_nil {p : ℕ} {vs : List ℚ} (hp : p ≠ 0)
    (hlen : p ≤ vs.length) : emaCalculate p vs ≠ [] := by
  unfold emaCalculate
  rw [if_neg hp, if_neg (by omega)]
  simp

/-- C8 (amended): in `calculateEMAs` BOTH the EMA5 and the EMA50 results are
defined exactly when at least `ema50Period = 50` price values exist (the
single guard `prices.length < ema50Period` gates both periods — EMA5 is NOT
available as soon as 5 values exist); in particular 49 committed prices plus
the current one make both defined, 48 or fewer leave both null.  When at
least `period` values exist, the modelled EMA series starts at the simple
average of the first `period` values (the recurrence seed). -/
theorem calculateEMAs_definedness (st : TAState) (price : ℚ) :
    ((calculateEMAs st price).1.isSome ↔ ema50Period ≤ st.closingPrices.length + 1)
    ∧ ((calculateEMAs st price).2.isSome ↔ ema50Period ≤ st.closingPrices.length + 1)
    ∧ (∀ p : ℕ, p ≠ 0 → p ≤ (st.closingPrices ++ [price]).length →
        (emaCalculate p (st.closingPrices ++ [price])).head? =
          some (((st.closingPrices ++ [price]).take p).sum / (p : ℚ))) := by
  have hlen : (st.closingPrices ++ [price]).length = st.closingPrices.length + 1 := by
    simp
  refine ⟨?_, ?_, ?_⟩
  · unfold calculateEMAs
    by_cases h : (st.closingPrices ++ [price]).length < ema50Period
    · rw [if_pos h]
      simp only [Option.isSome_none, Bool.false_eq_true, false_iff]
      omega
    · rw [if_neg h]
      simp only [true_iff]
      constructor
      · intro _; omega
      · intro _
        rw [Option.isSome_iff_ne_none, ne_eq, List.getLast?_eq_none_iff]
        exact emaCalculate_ne_nil (by decide) (by unfold ema5Period ema50Period at *; omega)
  · unfold calculateEMAs
    by_cases h : (st.closingPrices ++ [price]).length < ema50Period
    · rw [if_pos h]
      simp only [Option.isSome_none, Bool.false_eq_true, false_iff]
      omega
    · rw [if_neg h]
      simp only [true_iff]
      constructor
      · intro _; omega
      · intro _
        rw [Option.isSome_iff_ne_none, ne_eq, List.getLast?_eq_none_iff]
        exact emaCalculate_ne_nil (by decide) (by omega)
  · intro p hp hple
    unfold emaCalculate
    rw [if_neg hp, if_neg (by omega)]
    simp

/-- C8 witness: with 49 committed closing prices the 50th (current) value
makes EMA50 defined. -/
theorem calculateEMAs_definedness_witness :
    (calculateEMAs ⟨List.replicate 49 (1 : ℚ), [], [], none, none⟩ 1).2.isSome :=
  (calculateEMAs_definedness ⟨List.replicate 49 (1 : ℚ), [], [], none, none⟩ 1).2.1.mpr
    (by decide)

/-- C8 counterexample: with 10 committed prices (11 values in total, at least
5) the claim says the period-5 EMA is defined, but the code returns null for
EMA5 whenever fewer than 50 values exist. -/
theorem calculateEMAs_ema5_counterexample :
    5 ≤ (List.replicate 10 (1 : ℚ)).length + 1
    ∧ (calculateEMAs ⟨List.replicate 10 (1 : ℚ), [], [], none, none⟩ 1).1 = none := by
  decide

/-! ### Theorems about arc-pattern detection (claim C3) -/

lemma lastFive_length {l : List ℚ} (h : 5 ≤ l.length) : (lastFive l).length = 5 := by
  unfold lastFive
  rw [List.length_drop]
  omega

lemma list_len5_shape (l : List ℚ) (h : l.length = 5) :
    ∃ a0 a1 a2 a3 a4, l = [a0, a1, a2, a3, a4] := by
  cases l with
  | nil => simp at h
  | cons a0 t0 =>
  cases t0 with
  | nil => simp at h
  | cons a1 t1 =>
  cases t1 with
  | nil => simp at h
  | cons a2 t2 =>
  cases t2 with
  | nil => simp at h
  | cons a3 t3 =>
  cases t3 with
  | nil => simp at h
  | cons a4 t4 =>
  cases t4 with
  | cons a5 t5 => simp at h
  | nil => exact ⟨a0, a1, a2, a3, a4, rfl⟩

/-- C3 (amended): with at least five points in each history,
`checkArcPattern` returns TOP exactly when the middle point of the last-5
EMA5 window is strictly greater than all four neighbours, the current EMA5
is ABOVE the current EMA50 (the code requires `currentEma5 > currentEma50`,
not below as the spec states), and `|middleEma5 - middleEma50| ≥ minEmaDiff`;
BOTTOM is the strict-minimum mirror with the current EMA5 BELOW the current
EMA50.  Ties of the middle point with any neighbour never qualify (strict
inequalities on both sides of each characterization). -/
theorem checkArcPattern_characterization (minD : ℚ) (st : TAState) (c5 c50 : ℚ)
    (h5 : 5 ≤ st.ema5History.length) (h50 : 5 ≤ st.ema50History.length) :
    (checkArcPattern minD st c5 c50 = some ArcPattern.TOP ↔
      ((lastFive st.ema5History).getD 2 0 > (lastFive st.ema5History).getD 0 0
       ∧ (lastFive st.ema5History).getD 2 0 > (lastFive st.ema5History).getD 1 0
       ∧ (lastFive st.ema5History).getD 2 0 > (lastFive st.ema5History).getD 3 0
       ∧ (lastFive st.ema5History).getD 2 0 > (lastFive st.ema5History).getD 4 0
       ∧ c5 > c50
       ∧ minD ≤ |(lastFive st.ema5History).getD 2 0 - (lastFive st.ema50History).getD 2 0|))
    ∧ (checkArcPattern minD st c5 c50 = some ArcPattern.BOTTOM ↔
      ((lastFive st.ema5History).getD 2 0 < (lastFive st.ema5History).getD 0 0
       ∧ (lastFive st.ema5History).getD 2 0 < (lastFive st.ema5History).getD 1 0
       ∧ (lastFive st.ema5History).getD 2 0 < (lastFive st.ema5History).getD 3 0
       ∧ (lastFive st.ema5History).getD 2 0 < (lastFive st.ema5History).getD 4 0
       ∧ c5 < c50
       ∧ minD ≤ |(lastFive st.ema5History).getD 2 0 - (lastFive st.ema50History).getD 2 0|)) := by
  obtain ⟨a0, a1, a2, a3, a4, hA⟩ :=
    list_len5_shape (lastFive st.ema5History) (lastFive_length h5)
  obtain ⟨b0, b1, b2, b3, b4, hB⟩ :=
    list_len5_shape (lastFive st.ema50History) (lastFive_length h50)
  unfold checkArcPattern
  rw [if_neg (by omega), hA, hB]
  simp only [List.getD_cons_zero, List.getD_cons_succ]
  split_ifs with hT hd hBot hd'
  · obtain ⟨t1, t2, t3, t4, t5⟩ := hT
    refine ⟨⟨fun hEq => absurd hEq (by simp), fun hR => ?_⟩,
            ⟨fun hEq => absurd hEq (by simp), fun hR => ?_⟩⟩
    · exact absurd hR.2.2.2.2.2 (not_le.mpr hd)
    · exact absurd t1 (by linarith [hR.1])
  · obtain ⟨t1, t2, t3, t4, t5⟩ := hT
    refine ⟨⟨fun _ => ⟨t1, t2, t3, t4, t5, not_lt.mp hd⟩, fun _ => rfl⟩,
            ⟨fun hEq => absurd hEq (by simp), fun hR => ?_⟩⟩
    exact absurd t1 (by linarith [hR.1])
  · obtain ⟨t1, t2, t3, t4, t5⟩ := hBot
    refine ⟨⟨fun hEq => absurd hEq (by simp), fun hR => ?_⟩,
            ⟨fun hEq => absurd hEq (by simp), fun hR => ?_⟩⟩
    · exact absurd t1 (by linarith [hR.1])
    · exact absurd hR.2.2.2.2.2 (not_le.mpr hd')
  · obtain ⟨t1, t2, t3, t4, t5⟩ := hBot
    refine ⟨⟨fun hEq => absurd hEq (by simp), fun hR => ?_⟩,
            ⟨fun _ => ⟨t1, t2, t3, t4, t5, not_lt.mp hd'⟩, fun _ => rfl⟩⟩
    exact absurd t1 (by linarith [hR.1])
  · refine ⟨⟨fun hEq => absurd hEq (by simp), fun hR => ?_⟩,
            ⟨fun hEq => absurd hEq (by simp), fun hR => ?_⟩⟩
    · exact absurd ⟨hR.1, hR.2.1, hR.2.2.1, hR.2.2.2.1, hR.2.2.2.2.1⟩ hT
    · exact absurd ⟨hR.1, hR.2.1, hR.2.2.1, hR.2.2.2.1, hR.2.2.2.2.1⟩ hBot

/-- Concrete indicator state for the C3 theorems: EMA5 window `[1,2,3,2,1]`,
EMA50 window all zero. -/
def arcSt : TAState := ⟨[], [1, 2, 3, 2, 1], [0, 0, 0, 0, 0], none, none⟩

/-- C3 witness: with `arcSt`, current EMA5 = 3 above current EMA50 = 1 and
`minEmaDiff = 1`, the arc detector reports TOP. -/
theorem checkArcPattern_characterization_witness :
    checkArcPattern 1 arcSt 3 1 = some ArcPattern.TOP :=
  (checkArcPattern_characterization 1 arcSt 3 1 (by decide) (by decide)).1.mpr
    (by norm_num [arcSt, lastFive, List.getD_cons_zero, List.getD_cons_succ])

/-- C3 counterexample: middle point 3 is strictly above all four neighbours,
the current EMA5 (1) is BELOW the current EMA50 (2) — the claim's
post-reversal orientation — and the gate `|3 - 0| ≥ 0` holds, yet the code
returns no TOP signal (it demands `currentEma5 > currentEma50`). -/
theorem checkArcPattern_orientation_counterexample :
    ((3 : ℚ) > 1 ∧ (3 : ℚ) > 2 ∧ (1 : ℚ) < 2 ∧ (0 : ℚ) ≤ |(3 : ℚ) - 0|)
    ∧ checkArcPattern 0 arcSt 1 2 = none := by
  constructor
  · norm_num
  · norm_num [checkArcPattern, arcSt, lastFive]

/-! ### TradingBot: crossover detection (`checkTradeSignals`) -/

/-- Position direction as reported by `BinanceApi.getCurrentPosition`
(`type` field: `null`, `'long'` or `'short'` — `none` models `null`). -/
inductive PosType where
  | long
  | short
deriving DecidableEq

/-- The stored crossover signal (`'UP_CROSS'` / `'DOWN_CROSS'`). -/
inductive CrossSignal where
  | UP_CROSS
  | DOWN_CROSS
deriving DecidableEq

/-- An order-producing action of the bot (market open long/short, close). -/
inductive TradeAction where
  | openLong (price : ℚ)
  | openShort (price : ℚ)
  | closeAt (price : ℚ)
deriving DecidableEq

/-- The mutable fields of `TradingBot`/`TechnicalAnalysis` that
`checkTradeSignals` reads and writes: `previousEma5`, `previousEma50`
(owned by `TechnicalAnalysis`), `lastCrossSignal` and `crossPrice`. -/
structure BotSignalState where
  previousEma5 : Option ℚ
  previousEma50 : Option ℚ
  lastCrossSignal : Option CrossSignal
  crossPrice : Option ℚ
deriving DecidableEq

/-- `TradingBot.checkTradeSignals`: given the live position snapshot the
exchange would report, the current EMAs and price, return the new state and
the action taken (at most one order per tick).  Mirrors the source: the
early return storing the previous EMAs when they are falsy; the guard
`priceAboveEmas ∨ priceBelowEmas ∨ hasEmaCross`; the two close branches
(which clear `lastCrossSignal`); and the open branch, entered only with no
position and a strict EMA cross, which records `crossPrice` and fires only
when the fresh signal differs from `lastCrossSignal`. -/
def checkTradeSignals (st : BotSignalState) (position : Option PosType)
    (e5 e50 price : ℚ) : BotSignalState × Option TradeAction :=
  if jsFalsyQ st.previousEma5 ∨ jsFalsyQ st.previousEma50 then
    ({ st with previousEma5 := some e5, previousEma50 := some e50 }, none)
  else
    let p5 := st.previousEma5.getD 0
    let p50 := st.previousEma50.getD 0
    if (price > e5 ∧ price > e50) ∨ (price < e5 ∧ price < e50) ∨
       ((p5 > p50 ∧ e5 < e50) ∨ (p5 < p50 ∧ e5 > e50)) then
      if position = some PosType.short ∧ price > e5 ∧ price > e50 then
        ({ st with lastCrossSignal := none }, some (TradeAction.closeAt price))
      else if position = some PosType.long ∧ price < e5 ∧ price < e50 then
        ({ st with lastCrossSignal := none }, some (TradeAction.closeAt price))
      else if position = none ∧ ((p5 > p50 ∧ e5 < e50) ∨ (p5 < p50 ∧ e5 > e50)) then
        let sig := if p5 > p50 ∧ e5 < e50 then CrossSignal.DOWN_CROSS
                   else CrossSignal.UP_CROSS
        if some sig ≠ st.lastCrossSignal then
          ({ st with crossPrice := some price, lastCrossSignal := some sig },
           some (if sig = CrossSignal.DOWN_CROSS then TradeAction.openShort price
                 else TradeAction.openLong price))
        else
          ({ st with crossPrice := some price }, none)
      else (st, none)
    else (st, none)

/-- Process a sequence of open-candle ticks `(ema5, ema50, price)` with a
flat position throughout, collecting every action fired. -/
def runTicks : BotSignalState → List (ℚ × ℚ × ℚ) → BotSignalState × List TradeAction
  | st, [] => (st, [])
  | st, (e5, e50, pr) :: rest =>
    let r := checkTradeSignals st none e5 e50 pr
    let rr := runTicks r.1 rest
    (rr.1, r.2.toList ++ rr.2)

/-- Three-valued sign of a rational, as used by the claim's
`sign(prevEma5 − prevEma50)` versus `sign(curEma5 − curEma50)` comparison. -/
def qsign (x : ℚ) : ℤ := if 0 < x then 1 else if x < 0 then -1 else 0

/-! ### TradingBot: arc-pattern handling (`handleArcPattern`) -/

/-- Insertion of one element into a descending-sorted list. -/
def insertDesc (x : ℚ) : List ℚ → List ℚ
  | [] => [x]
  | y :: ys => if x ≥ y then x :: y :: ys else y :: insertDesc x ys

/-- Numeric sort with comparator `(a, b) => b - a` (descending). -/
def sortDesc (l : List ℚ) : List ℚ := l.foldr insertDesc []

/-- Insertion of one element into an ascending-sorted list. -/
def insertAsc (x : ℚ) : List ℚ → List ℚ
  | [] => [x]
  | y :: ys => if x ≤ y then x :: y :: ys else y :: insertAsc x ys

/-- Numeric sort with comparator `(a, b) => a - b` (ascending). -/
def sortAsc (l : List ℚ) : List ℚ := l.foldr insertAsc []

/-- Sorting used by `handleArcPattern`: descending for a TOP (so index 1 is
the second-highest), ascending for a BOTTOM (index 1 the second-lowest). -/
def sortedByPattern (p : ArcPattern) (l : List ℚ) : List ℚ :=
  if p = ArcPattern.TOP then sortDesc l else sortAsc l

/-- `config.trading.maxPriceDiff` / `config.trading.maxExtremeDiff`. -/
structure TradingConfig where
  maxPriceDiff : ℚ
  maxExtremeDiff : ℚ

/-- The second extreme point as the claim words it: second-most-extreme EMA5
value OF THE 5-POINT ARC WINDOW, sorted by pattern direction.  Stated for
refinement comparison with the source, which sorts the whole history. -/
def specSecondExtremeWindow (p : ArcPattern) (hist : List ℚ) : Option ℚ :=
  (sortedByPattern p (lastFive hist)).get? 1

/-- `TradingBot.handleArcPattern`: decide which orders to place for a fresh
arc pattern.  Mirrors the source: `hasBreakout` compares the current EMAs
(`ema5 < ema50` for TOP, `ema5 > ema50` for BOTTOM); in the breakout case the
signal is discarded when `crossPrice` is falsy, when
`|price - crossPrice| > maxPriceDiff`, or when
`|price - secondExtreme| > maxExtremeDiff` where `secondExtreme` is entry 1
of the ENTIRE `ema5History` sorted by pattern direction (a missing entry
behaves like the source's `NaN > x`, i.e. no discard); otherwise the
pattern-specific close/open orders are produced. -/
def handleArcPattern (cfg : TradingConfig) (pattern : ArcPattern)
    (price e5 e50 : ℚ) (crossPrice : Option ℚ) (ema5History : List ℚ)
    (lastArcPattern : Option ArcPattern) (position : Option PosType) :
    List TradeAction :=
  let hasBreakout : Bool :=
    if pattern = ArcPattern.TOP then decide (e5 < e50) else decide (e5 > e50)
  let staleDiscard : Bool :=
    if hasBreakout then
      if jsFalsyQ crossPrice then true
      else if cfg.maxPriceDiff < |price - crossPrice.getD 0| then true
      else match (sortedByPattern pattern ema5History).get? 1 with
        | some s => decide (cfg.maxExtremeDiff < |price - s|)
        | none => false
    else false
  if staleDiscard then []
  else if pattern = ArcPattern.TOP ∧ some pattern ≠ lastArcPattern then
    (if position = some PosType.long then [TradeAction.closeAt price] else []) ++
    (if position ≠ some PosType.short then [TradeAction.openShort price] else [])
  else if pattern = ArcPattern.BOTTOM ∧ some pattern ≠ lastArcPattern then
    (if position = some PosType.short then [TradeAction.closeAt price] else []) ++
    (if position ≠ some PosType.long then [TradeAction.openLong price] else [])
  else []

/-! ### Theorems about crossover edge-triggering (claim C1) -/

lemma checkTradeSignals_flat_reduce (st : BotSignalState) (p5v p50v e5 e50 price : ℚ)
    (h5 : st.previousEma5 = some p5v) (h50 : st.previousEma50 = some p50v)
    (h5z : p5v ≠ 0) (h50z : p50v ≠ 0) :
    checkTradeSignals st none e5 e50 price =
      if p5v > p50v ∧ e5 < e50 then
        if some CrossSignal.DOWN_CROSS ≠ st.lastCrossSignal then
          ({ st with crossPrice := some price,
                     lastCrossSignal := some CrossSignal.DOWN_CROSS },
           some (TradeAction.openShort price))
        else ({ st with crossPrice := some price }, none)
      else if p5v < p50v ∧ e5 > e50 then
        if some CrossSignal.UP_CROSS ≠ st.lastCrossSignal then
          ({ st with crossPrice := some price,
                     lastCrossSignal := some CrossSignal.UP_CROSS },
           some (TradeAction.openLong price))
        else ({ st with crossPrice := some price }, none)
      else (st, none) := by
  have hguard : ¬(jsFalsyQ st.previousEma5 ∨ jsFalsyQ st.previousEma50) := by
    simp [jsFalsyQ, h5, h50, h5z, h50z]
  unfold checkTradeSignals
  rw [if_neg hguard]
  simp only [h5, h50, Option.getD_some, reduceCtorEq, false_and, if_false,
    eq_self_iff_true, true_and]
  by_cases hD : p5v > p50v ∧ e5 < e50
  · rw [if_pos (Or.inr (Or.inr (Or.inl hD))), if_pos (Or.inl hD), if_pos hD,
      if_pos rfl, if_pos hD]
  · by_cases hU : p5v < p50v ∧ e5 > e50
    · rw [if_pos (Or.inr (Or.inr (Or.inr hU))), if_pos (Or.inr hU), if_neg hD,
        if_neg (show ¬(CrossSignal.UP_CROSS = CrossSignal.DOWN_CROSS) from by simp),
        if_neg hD, if_pos hU]
    · by_cases hO : (price > e5 ∧ price > e50) ∨ (price < e5 ∧ price < e50) ∨
          ((p5v > p50v ∧ e5 < e50) ∨ (p5v < p50v ∧ e5 > e50))
      · rw [if_pos hO, if_neg (show ¬((p5v > p50v ∧ e5 < e50) ∨
            (p5v < p50v ∧ e5 > e50)) from by tauto), if_neg hD, if_neg hU]
      · rw [if_neg hO, if_neg hD, if_neg hU]

lemma runTicks_no_refire_up (p5v p50v : ℚ) (h5z : p5v ≠ 0) (h50z : p50v ≠ 0)
    (hlt : p5v < p50v) :
    ∀ (ticks : List (ℚ × ℚ × ℚ)), ∀ (st : BotSignalState),
      st.previousEma5 = some p5v → st.previousEma50 = some p50v →
      st.lastCrossSignal = some CrossSignal.UP_CROSS →
      (∀ t ∈ ticks, t.2.1 < t.1) →
      (runTicks st ticks).2 = [] := by
  intro ticks
  induction ticks with
  | nil => intro st _ _ _ _; simp [runTicks]
  | cons t rest ih =>
    intro st h5 h50 hlast hrel
    obtain ⟨e5, e50, pr⟩ := t
    have he : e50 < e5 := hrel (e5, e50, pr) (by simp)
    have hstep := checkTradeSignals_flat_reduce st p5v p50v e5 e50 pr h5 h50 h5z h50z
    rw [if_neg (by rintro ⟨h1, _⟩; linarith), if_pos ⟨hlt, he⟩,
        if_neg (by simp [hlast])] at hstep
    simp only [runTicks, hstep, Option.toList_none, List.nil_append]
    exact ih _ (by simpa using h5) (by simpa using h50) (by simpa using hlast)
      (fun t ht => hrel t (by simp [ht]))

lemma runTicks_no_refire_down (p5v p50v : ℚ) (h5z : p5v ≠ 0) (h50z : p50v ≠ 0)
    (hlt : p50v < p5v) :
    ∀ (ticks : List (ℚ × ℚ × ℚ)), ∀ (st : BotSignalState),
      st.previousEma5 = some p5v → st.previousEma50 = some p50v →
      st.lastCrossSignal = some CrossSignal.DOWN_CROSS →
      (∀ t ∈ ticks, t.1 < t.2.1) →
      (runTicks st ticks).2 = [] := by
  intro ticks
  induction ticks with
  | nil => intro st _ _ _ _; simp [runTicks]
  | cons t rest ih =>
    intro st h5 h50 hlast hrel
    obtain ⟨e5, e50, pr⟩ := t
    have he : e5 < e50 := hrel (e5, e50, pr) (by simp)
    have hstep := checkTradeSignals_flat_reduce st p5v p50v e5 e50 pr h5 h50 h5z h50z
    rw [if_pos ⟨hlt, he⟩, if_neg (by simp [hlast])] at hstep
    simp only [runTicks, hstep, Option.toList_none, List.nil_append]
    exact ih _ (by simpa using h5) (by simpa using h50) (by simpa using hlast)
      (fun t ht => hrel t (by simp [ht]))

/-- C1 (amended): with a flat position and defined, non-zero previous EMAs,
a crossover open fires on a tick exactly when the previous EMAs are strictly
ordered one way and the current EMAs strictly the opposite way (a
zero-difference tie on either side never fires) AND the implied signal
differs from the stored `lastCrossSignal`; the previous EMAs are not touched
by the tick; after an edge the fired direction is stored; and over any
further ticks sustaining the same strict relation no second signal ever
fires (suppression until the opposite edge). -/
theorem crossSignal_edge_triggered (st : BotSignalState) (p5v p50v e5 e50 price : ℚ)
    (h5 : st.previousEma5 = some p5v) (h50 : st.previousEma50 = some p50v)
    (h5z : p5v ≠ 0) (h50z : p50v ≠ 0) :
    ((checkTradeSignals st none e5 e50 price).2 = some (TradeAction.openLong price) ↔
      (p5v < p50v ∧ e50 < e5 ∧ st.lastCrossSignal ≠ some CrossSignal.UP_CROSS))
    ∧ ((checkTradeSignals st none e5 e50 price).2 = some (TradeAction.openShort price) ↔
      (p50v < p5v ∧ e5 < e50 ∧ st.lastCrossSignal ≠ some CrossSignal.DOWN_CROSS))
    ∧ ((checkTradeSignals st none e5 e50 price).1.previousEma5 = some p5v
       ∧ (checkTradeSignals st none e5 e50 price).1.previousEma50 = some p50v)
    ∧ (p5v < p50v ∧ e50 < e5 →
        (checkTradeSignals st none e5 e50 price).1.lastCrossSignal
          = some CrossSignal.UP_CROSS)
    ∧ (p50v < p5v ∧ e5 < e50 →
        (checkTradeSignals st none e5 e50 price).1.lastCrossSignal
          = some CrossSignal.DOWN_CROSS)
    ∧ (∀ ticks : List (ℚ × ℚ × ℚ),
        st.lastCrossSignal = some CrossSignal.UP_CROSS → p5v < p50v →
        (∀ t ∈ ticks, t.2.1 < t.1) → (runTicks st ticks).2 = [])
    ∧ (∀ ticks : List (ℚ × ℚ × ℚ),
        st.lastCrossSignal = some CrossSignal.DOWN_CROSS → p50v < p5v →
        (∀ t ∈ ticks, t.1 < t.2.1) → (runTicks st ticks).2 = []) := by
  have hred := checkTradeSignals_flat_reduce st p5v p50v e5 e50 price h5 h50 h5z h50z
  refine ⟨?_, ?_, ?_, ?_, ?_, ?_, ?_⟩
  · rw [hred]
    split_ifs with hD hNew hU hNew'
    · constructor
      · intro hEq; exact absurd hEq (by simp)
      · rintro ⟨h1, _, _⟩; exact absurd hD.1 (by linarith)
    · constructor
      · intro hEq; exact absurd hEq (by simp)
      · rintro ⟨h1, _, _⟩; exact absurd hD.1 (by linarith)
    · constructor
      · intro _; exact ⟨hU.1, hU.2, fun hc => hNew' hc.symm⟩
      · intro _; rfl
    · constructor
      · intro hEq; exact absurd hEq (by simp)
      · rintro ⟨_, _, h3⟩
        exact h3 (by rcases not_ne_iff.mp hNew' with h; exact h.symm)
    · constructor
      · intro hEq; exact absurd hEq (by simp)
      · rintro ⟨h1, h2, _⟩; exact hU ⟨h1, h2⟩
  · rw [hred]
    split_ifs with hD hNew hU hNew'
    · constructor
      · intro _; exact ⟨hD.1, hD.2, fun hc => hNew hc.symm⟩
      · intro _; rfl
    · constructor
      · intro hEq; exact absurd hEq (by simp)
      · rintro ⟨_, _, h3⟩
        exact h3 (by rcases not_ne_iff.mp hNew with h; exact h.symm)
    · constructor
      · intro hEq; exact absurd hEq (by simp)
      · rintro ⟨h1, _, _⟩; exact absurd hU.1 (by linarith)
    · constructor
      · intro hEq; exact absurd hEq (by simp)
      · rintro ⟨h1, _, _⟩; exact absurd hU.1 (by linarith)
    · constructor
      · intro hEq; exact absurd hEq (by simp)
      · rintro ⟨h1, h2, _⟩; exact hD ⟨h1, h2⟩
  · rw [hred]
    split_ifs <;> simp [h5, h50]
  · rintro ⟨h1, h2⟩
    rw [hred, if_neg (by rintro ⟨h3, _⟩; linarith), if_pos ⟨h1, h2⟩]
    split_ifs with hNew
    · rfl
    · exact (not_ne_iff.mp hNew).symm
  · rintro ⟨h1, h2⟩
    rw [hred, if_pos ⟨h1, h2⟩]
    split_ifs with hNew
    · rfl
    · exact (not_ne_iff.mp hNew).symm
  · intro ticks hlast hlt hrel
    exact runTicks_no_refire_up p5v p50v h5z h50z hlt ticks st h5 h50 hlast hrel
  · intro ticks hlast hlt hrel
    exact runTicks_no_refire_down p5v p50v h5z h50z hlt ticks st h5 h50 hlast hrel

/-- C1 witness: previous EMAs (1, 2), current EMAs (3, 2), no stored signal,
flat position: the tick is an upward edge and an open-long fires. -/
theorem crossSignal_edge_triggered_witness :
    (checkTradeSignals ⟨some 1, some 2, none, none⟩ none 3 2 5).2
      = some (TradeAction.openLong 5) :=
  (crossSignal_edge_triggered ⟨some 1, some 2, none, none⟩ 1 2 3 2 5 rfl rfl
    (by norm_num) (by norm_num)).1.mpr ⟨by norm_num, by norm_num, by simp⟩

/-- C1 counterexample: previous EMAs tie (both 100, sign 0) and the current
EMA5 (101) is strictly above the current EMA50 (100, sign +1): the signs of
`prevEma5 − prevEma50` and `curEma5 − curEma50` differ, the position is
flat and no signal is stored, yet `checkTradeSignals` issues no open — the
source requires strictly opposite orders on both sides, so the claim's
"fires on the tick where the signs differ" is false at a tie. -/
theorem crossSignal_tie_counterexample :
    qsign ((100 : ℚ) - 100) ≠ qsign ((101 : ℚ) - 100)
    ∧ (checkTradeSignals ⟨some 100, some 100, none, none⟩ none 101 100 50).2 = none := by
  constructor
  · norm_num [qsign]
  · rw [checkTradeSignals_flat_reduce ⟨some 100, some 100, none, none⟩ 100 100 101 100 50
      rfl rfl (by norm_num) (by norm_num), if_neg (by norm_num), if_neg (by norm_num)]

/-! ### Theorems about the arc staleness guard (claim C9) -/

lemma insertDesc_length (x : ℚ) (l : List ℚ) :
    (insertDesc x l).length = l.length + 1 := by
  induction l with
  | nil => rfl
  | cons y ys ih =>
    unfold insertDesc
    split_ifs <;> simp [ih]

lemma sortDesc_length (l : List ℚ) : (sortDesc l).length = l.length := by
  induction l with
  | nil => rfl
  | cons y ys ih =>
    show (insertDesc y (sortDesc ys)).length = ys.length + 1
    rw [insertDesc_length, ih]

lemma insertAsc_length (x : ℚ) (l : List ℚ) :
    (insertAsc x l).length = l.length + 1 := by
  induction l with
  | nil => rfl
  | cons y ys ih =>
    unfold insertAsc
    split_ifs <;> simp [ih]

lemma sortAsc_length (l : List ℚ) : (sortAsc l).length = l.length := by
  induction l with
  | nil => rfl
  | cons y ys ih =>
    show (insertAsc y (sortAsc ys)).length = ys.length + 1
    rw [insertAsc_length, ih]

/-- C9 (amended): when an arc signal is acted on after the EMA order has
already flipped (`ema5 < ema50` for TOP, `ema5 > ema50` for BOTTOM), with a
recorded non-zero cross price, a fresh pattern and a flat position, the
orders are placed exactly when `|price − crossReferencePrice| ≤ maxPriceDiff`
AND `|price − secondExtremePoint| ≤ maxExtremeDiff`, where the second
extreme point is entry 1 of the ENTIRE `ema5History` sorted by pattern
direction (the source sorts the whole history, not the 5-point arc window);
otherwise the signal is discarded and no order is placed. -/
theorem handleArcPattern_staleness (cfg : TradingConfig) (price e5 e50 cp : ℚ)
    (hist : List ℚ) (lastArc : Option ArcPattern)
    (hcp : cp ≠ 0) (h2 : 2 ≤ hist.length) :
    (e5 < e50 → lastArc ≠ some ArcPattern.TOP →
      handleArcPattern cfg ArcPattern.TOP price e5 e50 (some cp) hist lastArc none =
        if |price - cp| ≤ cfg.maxPriceDiff ∧
           |price - (sortDesc hist).getD 1 0| ≤ cfg.maxExtremeDiff
        then [TradeAction.openShort price] else [])
    ∧ (e50 < e5 → lastArc ≠ some ArcPattern.BOTTOM →
      handleArcPattern cfg ArcPattern.BOTTOM price e5 e50 (some cp) hist lastArc none =
        if |price - cp| ≤ cfg.maxPriceDiff ∧
           |price - (sortAsc hist).getD 1 0| ≤ cfg.maxExtremeDiff
        then [TradeAction.openLong price] else []) := by
  have hfalsy : ¬ jsFalsyQ (some cp) := by simp [jsFalsyQ, hcp]
  constructor
  · intro hb hl
    obtain ⟨s, hs⟩ : ∃ s, (sortDesc hist).get? 1 = some s :=
      ⟨_, List.get?_eq_get (by rw [sortDesc_length]; omega)⟩
    have hgetD : (sortDesc hist).getD 1 0 = s := by
      rw [List.getD_eq_getElem?_getD, ← List.get?_eq_getElem?, hs]; rfl
    rw [hgetD]
    simp only [handleArcPattern, sortedByPattern, if_true, decide_eq_true hb,
      Option.getD_some, eq_self_iff_true, hs, true_and, false_and, reduceCtorEq,
      if_false, ne_eq, not_false_iff, List.nil_append]
    rw [if_neg hfalsy]
    by_cases hc1 : cfg.maxPriceDiff < |price - cp|
    · rw [if_pos hc1, if_pos (rfl : (true : Bool) = true),
        if_neg (fun h => absurd hc1 (not_lt.mpr h.1))]
    · rw [if_neg hc1]
      by_cases hc2 : cfg.maxExtremeDiff < |price - s|
      · rw [decide_eq_true hc2, if_pos (rfl : (true : Bool) = true),
          if_neg (fun h => absurd hc2 (not_lt.mpr h.2))]
      · rw [decide_eq_false hc2, if_neg (by simp : ¬((false : Bool) = true)),
          if_pos (Ne.symm hl), if_pos ⟨not_lt.mp hc1, not_lt.mp hc2⟩]
  · intro hb hl
    obtain ⟨s, hs⟩ : ∃ s, (sortAsc hist).get? 1 = some s :=
      ⟨_, List.get?_eq_get (by rw [sortAsc_length]; omega)⟩
    have hgetD : (sortAsc hist).getD 1 0 = s := by
      rw [List.getD_eq_getElem?_getD, ← List.get?_eq_getElem?, hs]; rfl
    rw [hgetD]
    simp only [handleArcPattern, sortedByPattern, if_true,
      decide_eq_true (show e5 > e50 from hb),
      Option.getD_some, eq_self_iff_true, hs, true_and, false_and, reduceCtorEq,
      if_false, ne_eq, not_false_iff, List.nil_append]
    rw [if_neg hfalsy]
    by_cases hc1 : cfg.maxPriceDiff < |price - cp|
    · rw [if_pos hc1, if_pos (rfl : (true : Bool) = true),
        if_neg (fun h => absurd hc1 (not_lt.mpr h.1))]
    · rw [if_neg hc1]
      by_cases hc2 : cfg.maxExtremeDiff < |price - s|
      · rw [decide_eq_true hc2, if_pos (rfl : (true : Bool) = true),
          if_neg (fun h => absurd hc2 (not_lt.mpr h.2))]
      · rw [decide_eq_false hc2, if_neg (by simp : ¬((false : Bool) = true)),
          if_pos (Ne.symm hl), if_pos ⟨not_lt.mp hc1, not_lt.mp hc2⟩]

/-- C9 witness: TOP arc with flipped EMAs (e5 = 0 < e50 = 1), cross price 2,
history `[99, 5]`: both distance guards pass (second extreme 5) and the
short open is placed. -/
theorem handleArcPattern_staleness_witness :
    handleArcPattern ⟨10, 100⟩ ArcPattern.TOP 2 0 1 (some 2) [99, 5] none none
      = [TradeAction.openShort 2] := by
  have h := (handleArcPattern_staleness ⟨10, 100⟩ 2 0 1 2 [99, 5] none
    (by norm_num) (by norm_num)).1 (by norm_num) (by simp)
  rw [h, if_pos (by norm_num [sortDesc, insertDesc, List.getD_cons_succ,
    List.getD_cons_zero])]

/-- EMA5 history used for the C9 counterexample: the 5-point arc window is
`[99, 1, 2, 1, 1]` (second-highest 2) but the whole history also holds 100
(second-highest 99). -/
def c9Hist : List ℚ := [100, 99, 1, 2, 1, 1]

/-- C9 counterexample: acting on a TOP arc after the breakout with price 2
and cross price 2, the claim's two conditions hold — `|2 − 2| = 0 ≤
maxPriceDiff` and `|2 − 2| = 0 ≤ maxExtremeDiff` against the second-most-
extreme value of the 5-point window (which is 2) — yet the source places no
order: it sorts the ENTIRE `ema5History`, whose second extreme is 99, and
`|2 − 99| = 97 > maxExtremeDiff` discards the signal as stale. -/
theorem handleArcPattern_window_counterexample :
    specSecondExtremeWindow ArcPattern.TOP c9Hist = some 2
    ∧ |(2 : ℚ) - 2| ≤ (10 : ℚ) ∧ |(2 : ℚ) - 2| ≤ (1 : ℚ)
    ∧ handleArcPattern ⟨10, 1⟩ ArcPattern.TOP 2 0 1 (some 2) c9Hist none none = [] := by
  refine ⟨?_, by norm_num, by norm_num, ?_⟩
  · norm_num [specSecondExtremeWindow, sortedByPattern, lastFive, c9Hist,
      sortDesc, insertDesc]
  · norm_num [handleArcPattern, sortedByPattern, c9Hist, sortDesc, insertDesc,
      jsFalsyQ]

/-! ### WebSocketManager: state, timers, reconnect, subscriptions -/

/-- Kinds of timer the manager creates: the ping interval
(`setupHeartbeat`), the pong timeout (armed inside the ping callback) and
the connection-monitor interval (`setupConnectionMonitor`). -/
inductive TimerKind where
  | ping
  | pong
  | monitor
deriving DecidableEq

/-- State of a `WebSocketManager` plus the set of timers currently scheduled
in its environment.  `pingInterval`/`pongTimeout` hold the stored timer ids
(`null` = `none`); `activeTimers` are the timers that can still fire;
`wsPresent` models `this.ws !== null` and `wsOpen` models
`readyState === OPEN`. -/
structure WSState where
  reconnectAttempts : ℕ
  isReconnecting : Bool
  subscriptions : List String
  wsPresent : Bool
  wsOpen : Bool
  pingInterval : Option ℕ
  pongTimeout : Option ℕ
  activeTimers : List (ℕ × TimerKind)
  nextTimerId : ℕ
deriving DecidableEq

/-- A freshly constructed manager: no timers, no subscriptions, attempt
counter 0. -/
def initWS : WSState :=
  { reconnectAttempts := 0, isReconnecting := false, subscriptions := []
    wsPresent := false, wsOpen := false, pingInterval := none
    pongTimeout := none, activeTimers := [], nextTimerId := 0 }

/-- `clearInterval`/`clearTimeout`: the timer with this id can no longer
fire. -/
def clearTimer (id : ℕ) (act : List (ℕ × TimerKind)) : List (ℕ × TimerKind) :=
  act.filter (fun t => t.1 ≠ id)

/-- `WebSocketManager.cleanup`: clear the stored ping interval and pong
timeout, if any. -/
def cleanup (st : WSState) : WSState :=
  let st1 := match st.pingInterval with
    | some id => { st with activeTimers := clearTimer id st.activeTimers,
                           pingInterval := none }
    | none => st
  match st1.pongTimeout with
  | some id => { st1 with activeTimers := clearTimer id st1.activeTimers,
                          pongTimeout := none }
  | none => st1

/-- `WebSocketManager.close`: `cleanup()` then, when a socket exists, close
it and null the reference.  Note: nothing cancels the connection-monitor
interval, whose handle was never stored. -/
def close (st : WSState) : WSState :=
  let st1 := cleanup st
  if st1.wsPresent then { st1 with wsPresent := false, wsOpen := false } else st1

/-- `WebSocketManager.setupHeartbeat`: `cleanup()` then register the periodic
ping interval, storing its id in `pingInterval`. -/
def setupHeartbeat (st : WSState) : WSState :=
  let st1 := cleanup st
  { st1 with activeTimers := st1.activeTimers ++ [(st1.nextTimerId, TimerKind.ping)]
             pingInterval := some st1.nextTimerId
             nextTimerId := st1.nextTimerId + 1 }

/-- `WebSocketManager.setupConnectionMonitor`: register the idle-watchdog
interval.  The source discards the value returned by `setInterval`, so no
field of the manager remembers this timer. -/
def setupConnectionMonitor (st : WSState) : WSState :=
  { st with activeTimers := st.activeTimers ++ [(st.nextTimerId, TimerKind.monitor)]
            nextTimerId := st.nextTimerId + 1 }

/-- One firing of the ping-interval callback while the socket is open: send
a ping and arm the pong timeout, storing its id. -/
def heartbeatTick (st : WSState) : WSState :=
  if st.wsOpen then
    { st with activeTimers := st.activeTimers ++ [(st.nextTimerId, TimerKind.pong)]
              pongTimeout := some st.nextTimerId
              nextTimerId := st.nextTimerId + 1 }
  else st

/-- `WebSocketManager.handlePong`: disarm the pong timeout if armed. -/
def handlePong (st : WSState) : WSState :=
  match st.pongTimeout with
  | some id => { st with activeTimers := clearTimer id st.activeTimers,
                         pongTimeout := none }
  | none => st

/-- Control frames sent on the socket (the `id: Date.now()` field carries no
semantics and is omitted). -/
inductive Frame where
  | subscribeReq (channels : List String)
  | unsubscribeReq (channels : List String)
deriving DecidableEq

/-- JS `Set.add` insertion-order semantics on the subscription set. -/
def setAdd (l : List String) (c : String) : List String :=
  if c ∈ l then l else l ++ [c]

/-- `WebSocketManager.subscribe`: ONLY when the socket is open, send the
frame and add the channel to the set; otherwise nothing happens at all. -/
def subscribe (c : String) (st : WSState) : WSState × Option Frame :=
  if st.wsOpen then
    ({ st with subscriptions := setAdd st.subscriptions c },
     some (Frame.subscribeReq [c]))
  else (st, none)

/-- `WebSocketManager.unsubscribe`: only when open, send the frame and
remove the channel. -/
def unsubscribe (c : String) (st : WSState) : WSState × Option Frame :=
  if st.wsOpen then
    ({ st with subscriptions := st.subscriptions.filter (fun x => x ≠ c) },
     some (Frame.unsubscribeReq [c]))
  else (st, none)

/-- `WebSocketManager.resubscribe`: when the subscription set is nonempty,
send one batched subscribe request for all channels. -/
def resubscribe (st : WSState) : WSState × Option Frame :=
  if st.subscriptions ≠ [] then (st, some (Frame.subscribeReq st.subscriptions))
  else (st, none)

/-- `WebSocketManager.handleOpen`: on the `open` event, reset the attempt
counter, clear the reconnecting flag and replay the subscription set. -/
def handleOpen (st : WSState) : WSState × Option Frame :=
  resubscribe { st with reconnectAttempts := 0, isReconnecting := false }

/-- The literal `30000` ms cap of the reconnect delay in `handleReconnect`
(the `maxDelay` of the spec's configuration surface). -/
def maxDelay : ℕ := 30000

/-- What `handleReconnect` does besides updating state: schedule another
`connect()` after a delay, or terminate the whole process
(`process.exit(1)`), or nothing (already reconnecting). -/
inductive ReconnectEffect where
  | scheduleConnect (delayMs : ℕ)
  | exitProcess (code : ℕ)
  | noop
deriving DecidableEq

/-- `WebSocketManager.handleReconnect` with `config.websocket.reconnectDelay
= baseDelay` and `config.websocket.maxReconnectAttempts = maxAttempts`:
below the attempt cap, increment the counter and schedule `connect()` after
`min(baseDelay·2^(attempt−1), 30000)` ms; at or above the cap, log and call
`process.exit(1)`. -/
def handleReconnect (maxAttempts baseDelay : ℕ) (st : WSState) :
    WSState × ReconnectEffect :=
  if st.isReconnecting then (st, ReconnectEffect.noop)
  else
    let st1 := { st with isReconnecting := true }
    if st1.reconnectAttempts < maxAttempts then
      let st2 := { st1 with reconnectAttempts := st1.reconnectAttempts + 1 }
      (st2, ReconnectEffect.scheduleConnect
        (min (baseDelay * 2 ^ (st2.reconnectAttempts - 1)) maxDelay))
    else
      ({ st1 with isReconnecting := false }, ReconnectEffect.exitProcess 1)

/-- The backoff formula of `handleReconnect` for attempt `k ≥ 1`. -/
def delayFormula (baseDelay k : ℕ) : ℕ :=
  min (baseDelay * 2 ^ (k - 1)) maxDelay

/-! ### WebSocketManager: `connect()` bootstrap -/

/-- A raw kline as returned by `getHistoricalKlines` (array positions
0 = open time, 6 = close time, 1..5 = open/high/low/close/volume). -/
structure RawKline where
  openTime : ℕ
  closeTime : ℕ
  openPrice : ℚ
  highPrice : ℚ
  lowPrice : ℚ
  closePrice : ℚ
  volume : ℚ
deriving DecidableEq

/-- The kline message `connect()` hands to `onMessage` for each historical
kline: same fields, with `x: true` marking the candle closed. -/
structure KlineMsg where
  openTime : ℕ
  closeTime : ℕ
  openPrice : ℚ
  highPrice : ℚ
  lowPrice : ℚ
  closePrice : ℚ
  volume : ℚ
  isClosed : Bool
deriving DecidableEq

/-- The field mapping `connect()` applies to each raw historical kline
(`t`:=k[0], `T`:=k[6], `o,h,l,c,v`:=k[1..5], `x := true`). -/
def formatKline (k : RawKline) : KlineMsg :=
  ⟨k.openTime, k.closeTime, k.openPrice, k.highPrice, k.lowPrice,
   k.closePrice, k.volume, true⟩

/-- Observable events of one `connect()` invocation, in order. -/
inductive WSEvent where
  | fetchKlines (limit : ℕ)
  | deliver (m : KlineMsg)
  | openTransport
deriving DecidableEq

/-- The event trace of one `connect()` invocation whose historical fetch
returned `ks`: request 100 klines, deliver `ks.slice(0, -1)` (every kline
but the last, still-open one) to `onMessage` in order, then create the
WebSocket. -/
def connectTrace (ks : List RawKline) : List WSEvent :=
  WSEvent.fetchKlines 100 ::
    (ks.take (ks.length - 1)).map (fun k => WSEvent.deliver (formatKline k))
    ++ [WSEvent.openTransport]

/-! ### Theorems about reconnect exhaustion (claim C4) -/

/-- A manager that has already used up 5 reconnect attempts. -/
def wsExhausted : WSState := { initWS with reconnectAttempts := 5 }

/-- C4 (amended): once `reconnectAttempts` reaches `maxReconnectAttempts`
and no reconnect is in flight, `handleReconnect` schedules no retry, leaves
the attempt counter unchanged — but instead of merely reporting a terminal
condition to the caller it terminates the whole process via
`process.exit(1)`. -/
theorem handleReconnect_terminal (maxA base : ℕ) (st : WSState)
    (h1 : st.isReconnecting = false) (h2 : maxA ≤ st.reconnectAttempts) :
    (handleReconnect maxA base st).2 = ReconnectEffect.exitProcess 1
    ∧ (handleReconnect maxA base st).1.reconnectAttempts = st.reconnectAttempts := by
  unfold handleReconnect
  rw [if_neg (by simp [h1]), if_neg (by simpa using Nat.not_lt.mpr h2)]
  exact ⟨rfl, rfl⟩

/-- C4 witness: with the cap at 5 and 5 attempts used, the terminal branch
is taken. -/
theorem handleReconnect_terminal_witness :
    (handleReconnect 5 1000 wsExhausted).2 = ReconnectEffect.exitProcess 1
    ∧ (handleReconnect 5 1000 wsExhausted).1.reconnectAttempts = 5 :=
  ⟨(handleReconnect_terminal 5 1000 wsExhausted rfl (by decide)).1,
   (handleReconnect_terminal 5 1000 wsExhausted rfl (by decide)).2⟩

/-- C4 counterexample: exceeding the attempt cap makes the component itself
terminate the process (`process.exit(1)`, modelled by the `exitProcess`
effect) — refuting the claim that no process-level side effect happens
inside the component. -/
theorem handleReconnect_exit_counterexample :
    (handleReconnect 5 1000 wsExhausted).2 = ReconnectEffect.exitProcess 1 := by
  decide

/-! ### Theorems about `close()` and timers (claim C5) -/

/-- The heartbeat timers the manager tracks are exactly the stored ones:
every live ping-kind timer is the stored `pingInterval` and every live
pong-kind timer is the stored `pongTimeout`.  This holds for every state the
source can build, because ping/pong timers are only created by
`setupHeartbeat`/the ping callback, which store their ids. -/
def timersWellFormed (st : WSState) : Prop :=
  ∀ t ∈ st.activeTimers,
    (t.2 = TimerKind.ping → st.pingInterval = some t.1)
    ∧ (t.2 = TimerKind.pong → st.pongTimeout = some t.1)

instance (st : WSState) : Decidable (timersWellFormed st) := by
  unfold timersWellFormed; infer_instance

/-- C5 (amended): after `close()`, the stored ping interval and pong timeout
are cancelled and the transport is closed — but ONLY connection-monitor
timers can remain alive: the idle-watchdog interval is never stored and
`close()` cannot cancel it. -/
theorem close_cancels_heartbeat (st : WSState) (h : timersWellFormed st) :
    (close st).pingInterval = none
    ∧ (close st).pongTimeout = none
    ∧ (close st).wsPresent = false
    ∧ (∀ t ∈ (close st).activeTimers, t.2 = TimerKind.monitor) := by
  have hclean : ∀ t ∈ (cleanup st).activeTimers, t.2 = TimerKind.monitor := by
    intro t ht
    have hmem : t ∈ st.activeTimers ∧
        (∀ id, st.pingInterval = some id → t.1 ≠ id)
        ∧ (∀ id, st.pongTimeout = some id → t.1 ≠ id) := by
      unfold cleanup at ht
      rcases hpi : st.pingInterval with _ | pid <;>
        rcases hpo : st.pongTimeout with _ | qid <;>
        simp [hpi, hpo, clearTimer, List.mem_filter] at ht <;>
        refine ⟨by tauto, ?_, ?_⟩ <;> intro id hid <;>
        simp_all
    obtain ⟨tid, tk⟩ := t
    cases tk with
    | ping =>
      exfalso
      have hstore := ((h _ hmem.1).1 rfl)
      exact hmem.2.1 tid hstore rfl
    | pong =>
      exfalso
      have hstore := ((h _ hmem.1).2 rfl)
      exact hmem.2.2 tid hstore rfl
    | monitor => rfl
  have hping : (cleanup st).pingInterval = none := by
    unfold cleanup
    rcases hpi : st.pingInterval with _ | pid <;>
      rcases hpo : st.pongTimeout with _ | qid <;> simp [hpi, hpo]
  have hpong : (cleanup st).pongTimeout = none := by
    unfold cleanup
    rcases hpi : st.pingInterval with _ | pid <;>
      rcases hpo : st.pongTimeout with _ | qid <;> simp [hpi, hpo]
  simp only [close]
  split_ifs with hw
  · exact ⟨hping, hpong, rfl, hclean⟩
  · refine ⟨hping, hpong, ?_, hclean⟩
    simpa using hw

/-- The manager state right after `connect()` has armed the heartbeat and
the connection monitor on an open socket. -/
def wsConnected : WSState :=
  setupConnectionMonitor (setupHeartbeat
    { initWS with wsPresent := true, wsOpen := true })

/-- C5 witness: closing the connected state clears both stored heartbeat
timers. -/
theorem close_cancels_heartbeat_witness :
    (close wsConnected).pingInterval = none
    ∧ (close wsConnected).pongTimeout = none :=
  ⟨(close_cancels_heartbeat wsConnected (by decide)).1,
   (close_cancels_heartbeat wsConnected (by decide)).2.1⟩

/-- C5 counterexample: after `close()` on the connected state, the
connection-monitor interval (id 1) is still scheduled and can still fire —
refuting the claim that no timer callback can ever fire after close. -/
theorem close_dangling_monitor_counterexample :
    (close wsConnected).activeTimers = [(1, TimerKind.monitor)]
    ∧ (close wsConnected).wsPresent = false := by
  decide

/-! ### Theorems about subscribe/resubscribe (claim C6) -/

/-- C6 (amended): `subscribe(channel)` while the transport is NOT connected
is a complete no-op — the channel is NOT added to the subscription set and
no frame is sent; while connected it adds the channel and sends the frame
immediately; on the `open` event the retained set, when nonempty, is
replayed as a single batched subscribe request (and the attempt counter is
reset). -/
theorem subscribe_retention (st : WSState) (c : String) :
    (st.wsOpen = false → subscribe c st = (st, none))
    ∧ (st.wsOpen = true →
        (subscribe c st).1.subscriptions = setAdd st.subscriptions c
        ∧ (subscribe c st).2 = some (Frame.subscribeReq [c]))
    ∧ ((handleOpen st).2 = if st.subscriptions = [] then none
        else some (Frame.subscribeReq st.subscriptions))
    ∧ ((handleOpen st).1.subscriptions = st.subscriptions)
    ∧ ((handleOpen st).1.reconnectAttempts = 0) := by
  refine ⟨?_, ?_, ?_, ?_, ?_⟩
  · intro hcl
    unfold subscribe
    rw [if_neg (by simp [hcl])]
  · intro hop
    unfold subscribe
    rw [if_pos hop]
    exact ⟨rfl, rfl⟩
  · unfold handleOpen resubscribe
    by_cases hs : st.subscriptions = [] <;> simp [hs]
  · unfold handleOpen resubscribe
    split_ifs <;> rfl
  · unfold handleOpen resubscribe
    split_ifs <;> rfl

/-- C6 witness: subscribing while connected adds the channel and sends the
frame; replaying on open batches the retained set. -/
theorem subscribe_retention_witness :
    subscribe ("c1") initWS = (initWS, none) :=
  (subscribe_retention initWS ("c1")).1 rfl

/-- C6 counterexample: subscribing to a channel while the transport is not
connected leaves the subscription set EMPTY (and sends nothing) — the
channel is not retained, refuting the claim. -/
theorem subscribe_offline_counterexample :
    (subscribe ("klineChannel") initWS).1.subscriptions = []
    ∧ (subscribe ("klineChannel") initWS).2 = none := by
  decide

/-! ### Theorems about backoff and attempt reset (claim C7) -/

/-- C7: below the attempt cap, reconnect attempt `k = reconnectAttempts + 1`
is scheduled after exactly `min(baseDelay·2^(k−1), maxDelay)` ms with
`maxDelay = 30000`; this delay sequence is non-decreasing in `k` and capped
by `maxDelay`; and the `open` event resets the attempt counter to 0. -/
theorem backoff_formula_monotone_reset (maxA base k : ℕ) (st : WSState)
    (hr : st.isReconnecting = false) (hlt : st.reconnectAttempts < maxA)
    (hk : 1 ≤ k) :
    (handleReconnect maxA base st).2
      = ReconnectEffect.scheduleConnect (delayFormula base (st.reconnectAttempts + 1))
    ∧ (handleReconnect maxA base st).1.reconnectAttempts = st.reconnectAttempts + 1
    ∧ delayFormula base k ≤ delayFormula base (k + 1)
    ∧ delayFormula base k ≤ maxDelay
    ∧ (∀ s : WSState, (handleOpen s).1.reconnectAttempts = 0) := by
  refine ⟨?_, ?_, ?_, ?_, ?_⟩
  · unfold handleReconnect
    rw [if_neg (by simp [hr]), if_pos hlt]
    rfl
  · unfold handleReconnect
    rw [if_neg (by simp [hr]), if_pos hlt]
  · unfold delayFormula
    refine min_le_min ?_ (le_refl maxDelay)
    exact Nat.mul_le_mul (le_refl base)
      (Nat.pow_le_pow_right (by norm_num) (by omega))
  · exact min_le_right _ _
  · intro s
    unfold handleOpen resubscribe
    split_ifs <;> rfl

/-- C7 witness: first reconnect from a fresh manager is scheduled after
`delayFormula 1000 1 = min(1000·2^0, 30000)` ms, and the open event resets
the counter. -/
theorem backoff_formula_monotone_reset_witness :
    (handleReconnect 10 1000 initWS).2
      = ReconnectEffect.scheduleConnect (delayFormula 1000 1)
    ∧ (handleOpen initWS).1.reconnectAttempts = 0 :=
  ⟨(backoff_formula_monotone_reset 10 1000 1 initWS rfl (by decide) (by decide)).1,
   (backoff_formula_monotone_reset 10 1000 1 initWS rfl (by decide)
     (by decide)).2.2.2.2 initWS⟩

/-! ### Theorems about history replay on (re)connect (claim C10) -/

/-- C10: every `connect()` invocation first requests 100 klines, then
delivers every fetched kline EXCEPT the last (still-open) one to `onMessage`
as closed-candle messages, in order, and only then opens the transport (the
transport-open event is the trace's last element); and whenever
`handleReconnect` runs below the attempt cap with no reconnect in flight it
schedules `connect()` again — so after any reconnect the consumer receives
the historical closed candles once more. -/
theorem connect_replays_history (ks : List RawKline) (maxA base : ℕ)
    (st : WSState) (h1 : st.isReconnecting = false)
    (h2 : st.reconnectAttempts < maxA) :
    connectTrace ks = WSEvent.fetchKlines 100 ::
        (ks.dropLast.map (fun k => WSEvent.deliver (formatKline k)))
        ++ [WSEvent.openTransport]
    ∧ (∀ k : RawKline, (formatKline k).isClosed = true)
    ∧ (connectTrace ks).getLast? = some WSEvent.openTransport
    ∧ (∃ d, (handleReconnect maxA base st).2 = ReconnectEffect.scheduleConnect d) := by
  refine ⟨?_, ?_, ?_, ?_⟩
  · unfold connectTrace
    rw [List.dropLast_eq_take]
  · intro k; rfl
  · unfold connectTrace
    rw [List.getLast?_concat]
  · unfold handleReconnect
    rw [if_neg (by simp [h1]), if_pos h2]
    exact ⟨_, rfl⟩

/-- Two concrete raw klines for the C10 witness. -/
def k1 : RawKline := ⟨0, 1, 1, 2, 0, 1, 3⟩

/-- Second concrete raw kline for the C10 witness (the still-open one). -/
def k2 : RawKline := ⟨1, 2, 1, 2, 0, 2, 3⟩

/-- C10 witness: with two fetched klines only the first is delivered, before
the transport opens, and a below-cap reconnect schedules another connect. -/
theorem connect_replays_history_witness :
    connectTrace [k1, k2] = WSEvent.fetchKlines 100 ::
        ([k1, k2].dropLast.map (fun k => WSEvent.deliver (formatKline k)))
        ++ [WSEvent.openTransport]
    ∧ (∃ d, (handleReconnect 3 500 initWS).2 = ReconnectEffect.scheduleConnect d) :=
  ⟨(connect_replays_history [k1, k2] 3 500 initWS rfl (by decide)).1,
   (connect_replays_history [k1, k2] 3 500 initWS rfl (by decide)).2.2.2⟩

end Cytrade
